import Mathlib

/-!
Shallow embedding of the GEARP neural-network modules (src/modules.py) and
proofs about the claims on them.

The source is TensorFlow 1.x graph-construction code.  Pure tensor math is
embedded over `ℝ` (exact real arithmetic stands in for float math; `Real.exp`
models `tf.exp` inside softmax) or over `ℚ` where no transcendental function
occurs.  Graph-construction shape checking (the only "error handling" the
source has) is embedded as an `Except String`-valued shape calculus over
`List ℕ` shapes, mirroring TensorFlow's per-op shape rules.
-/

namespace GEARP

/-! ### Generic tensor primitives (value level) -/

/-- Rectified linear unit on the reals, `tf.nn.relu`. -/
noncomputable def reluR (x : ℝ) : ℝ := max x 0

/-- Softmax over one axis, `tf.nn.softmax` with its default `axis=-1`:
given the slice along the last axis it returns
`exp (x i) / Σ j, exp (x j)`. -/
noncomputable def softmax {n : ℕ} (x : Fin n → ℝ) : Fin n → ℝ :=
  fun i => Real.exp (x i) / ∑ j, Real.exp (x j)

/-! ### Graph-construction shape calculus (`Except` = construction error)

TensorFlow 1.x validates shapes while the graph is being built; an
incompatible op raises before any numeric value exists.  Each `...Shape`
function below is the shape rule of the corresponding op. -/

/-- Shape rule of `tf.layers.dense(x, units)`: requires rank at least 2 and
replaces the innermost dimension by `units`. -/
def denseShape (input : List ℕ) (units : ℕ) : Except String (List ℕ) :=
  if 2 ≤ input.length then Except.ok (input.dropLast ++ [units])
  else Except.error "dense: input rank must be at least 2"

/-- Shape rule of `tf.nn.embedding_lookup(table, ids)`: the result shape is
the ids shape followed by the table shape without its leading dimension. -/
def embeddingLookupShape (table ids : List ℕ) : Except String (List ℕ) :=
  if 1 ≤ table.length then Except.ok (ids ++ table.drop 1)
  else Except.error "embedding_lookup: table must have rank at least 1"

/-- Shape rule of `tf.transpose(x, perm)`: `perm` must be a list of valid
axes whose length equals the rank of `x`; the output shape permutes the
input shape accordingly. -/
def transposeShape (input perm : List ℕ) : Except String (List ℕ) :=
  if perm.length = input.length ∧ perm.all (fun p => p < input.length) then
    Except.ok (perm.map (fun p => input.getD p 0))
  else Except.error "transpose: perm incompatible with input rank"

/-- Shape rule of element-wise binary ops (`+` on tensors): numpy-style
broadcasting, aligning the two shapes from the right. -/
def broadcastShape (a b : List ℕ) : Except String (List ℕ) :=
  let ra := a.reverse
  let rb := b.reverse
  let n := max ra.length rb.length
  let dims := (List.range n).map (fun i =>
    let da := ra.getD i 1
    let db := rb.getD i 1
    if da = db then some da
    else if da = 1 then some db
    else if db = 1 then some da
    else none)
  if dims.all Option.isSome then Except.ok ((dims.map (fun o => o.getD 1)).reverse)
  else Except.error "add: incompatible broadcast shapes"

/-- Shape rule of `tf.matmul` on rank-2 operands. -/
def matmulShape (a b : List ℕ) : Except String (List ℕ) :=
  match a, b with
  | [m, k1], [k2, n] =>
      if k1 = k2 then Except.ok [m, n]
      else Except.error "matmul: inner dimensions disagree"
  | _, _ => Except.error "matmul: expected rank-2 operands"

/-- Shape rule of `tf.stack(values, axis=1)` as used in `attentional_fm`:
stacking an empty list of tensors fails at graph-construction time. -/
def tf_stack {α : Type} (values : List α) : Except String (List α) :=
  if values.isEmpty then Except.error "stack: cannot stack an empty list of tensors"
  else Except.ok values

/-! ### `gat_attn_head` (src/modules.py lines 238-299), shape level

The head is embedded at shape level because the claims about it concern
graph construction: the op sequence is exactly that of the source
(dropout, dense to `output_size`, embedding lookup, the two dense
projections `f_1`/`f_2`, `tf.transpose(f_2, [0, 2, 1])`, broadcast add,
leaky-relu + bias + softmax (all shape-preserving), optional dropouts
(shape-preserving), matmul, bias add + activation (shape-preserving)). -/

/-- Shape-level embedding of `gat_attn_head`.  Returns the shapes of
`(ret, coefs)` or the first graph-construction error. -/
def gat_attn_head_shape (emb_shape indices_shape bias_shape : List ℕ)
    (output_size : ℕ) (ft_drop coef_drop : ℚ) : Except String (List ℕ × List ℕ) := do
  -- tf.layers.dropout preserves the shape
  let emb := if ft_drop ≠ 0 then emb_shape else emb_shape
  let hid ← denseShape emb output_size
  let b_hid ← embeddingLookupShape hid indices_shape
  let f1 ← denseShape b_hid 1
  let f2 ← denseShape hid 1
  let f2t ← transposeShape f2 [0, 2, 1]
  let logits ← broadcastShape f1 f2t
  -- leaky_relu preserves the shape; adding bias_mat broadcasts; softmax preserves
  let pre ← broadcastShape logits bias_shape
  let coefs := if coef_drop ≠ 0 then pre else pre
  let hid2 := if ft_drop ≠ 0 then hid else hid
  let vals ← matmulShape coefs hid2
  -- bias_add and the activation preserve the shape
  Except.ok (vals, coefs)

/-! ### `gatnet` bias mask (src/modules.py line 219) -/

/-- Embedding of `bias_mat = -1e9 * (1 - tf.cast(adj_mat, tf.float32))`.
The adjacency entries are integers (0/1); `1e9` is exactly `10 ^ 9`. -/
def gatnet_bias_mat {b n : ℕ} (adj_mat : Fin b → Fin n → ℤ) : Fin b → Fin n → ℚ :=
  fun i j => -(10 ^ 9) * (1 - (adj_mat i j : ℚ))

/-! ### `attentional_fm` (src/modules.py lines 62-134), attention branch -/

/-- The (i, j) index pairs produced by the double loop
`for i in range(0, attr_size): for j in range(i+1, attr_size)`. -/
def afmPairs (k : ℕ) : List (ℕ × ℕ) :=
  (List.range k).flatMap (fun i => (List.range' (i + 1) (k - (i + 1))).map (fun j => (i, j)))

/-- `element_wise_prod_list`: for each field pair (i, j) the element-wise
product `uattr_emb[:, i, :] * uattr_emb[:, j, :]`, one (b, d) tensor per
pair, in loop order. -/
noncomputable def afm_element_wise_prod (k : ℕ) {b d : ℕ}
    (uattr_emb : Fin b → ℕ → Fin d → ℝ) : List (Fin b → Fin d → ℝ) :=
  (afmPairs k).map (fun ij => fun s t => uattr_emb s ij.1 t * uattr_emb s ij.2 t)

/-- `attn_relu`: per pair, project the element-wise product through
`attention_W`, add `attention_b`, apply relu, and reduce with
`attention_p` over the hidden axis with `keepdims=True` — shape
(b, k(k-1)/2, 1). -/
noncomputable def afm_attn_relu (k : ℕ) {b d h : ℕ} (uattr_emb : Fin b → ℕ → Fin d → ℝ)
    (attn_W : Fin d → Fin h → ℝ) (attn_p attn_b : Fin h → ℝ) :
    List (Fin b → Fin 1 → ℝ) :=
  (afmPairs k).map (fun ij => fun s _ =>
    ∑ r, attn_p r *
      reluR ((∑ t, (uattr_emb s ij.1 t * uattr_emb s ij.2 t) * attn_W t r) + attn_b r))

/-- `attn_out = tf.nn.softmax(attn_relu)`: softmax with the default
`axis=-1`, i.e. over the trailing axis of size 1 of `attn_relu`. -/
noncomputable def afm_attn_out (k : ℕ) {b d h : ℕ} (uattr_emb : Fin b → ℕ → Fin d → ℝ)
    (attn_W : Fin d → Fin h → ℝ) (attn_p attn_b : Fin h → ℝ) :
    List (Fin b → Fin 1 → ℝ) :=
  (afm_attn_relu k uattr_emb attn_W attn_p attn_b).map (fun f => fun s => softmax (f s))

/-- The squeezed attention output `tf.squeeze(attn_out)` for one sample:
the list of per-pair attention weights. -/
noncomputable def afm_attn_weights (k : ℕ) {b d h : ℕ} (uattr_emb : Fin b → ℕ → Fin d → ℝ)
    (attn_W : Fin d → Fin h → ℝ) (attn_p attn_b : Fin h → ℝ) : Fin b → List ℝ :=
  fun s => (afm_attn_out k uattr_emb attn_W attn_p attn_b).map (fun f => f s 0)

/-! ### `centroid` (src/modules.py lines 137-181) -/

/-- The optional activation applied to `ft_mul`
(`if activation: ft_mul = activation_func(ft_mul)`). -/
noncomputable def centroid_act (activation : Option (ℝ → ℝ)) (x : ℝ) : ℝ :=
  match activation with
  | some f => f x
  | none => x

/-- Embedding of `centroid`: similarities `input · centroidsᵗ`, optional
activation, temperature `1/tao`, softmax over the centroid axis, and
attention-weighted pooling.  Returns `(output, logits)` as the source does. -/
noncomputable def centroid {b c d : ℕ} (input_features : Fin b → Fin d → ℝ)
    (centroids : Fin c → Fin d → ℝ) (tao : ℝ) (activation : Option (ℝ → ℝ)) :
    (Fin b → Fin d → ℝ) × (Fin b → Fin c → ℝ) :=
  let ft_mul : Fin b → Fin c → ℝ :=
    fun s j => centroid_act activation (∑ t, input_features s t * centroids j t)
  let logits : Fin b → Fin c → ℝ := fun s => softmax (fun j => ft_mul s j / tao)
  let output : Fin b → Fin d → ℝ := fun s t => ∑ j, logits s j * centroids j t
  (output, logits)

/-! ### `centroid_corr` (src/modules.py lines 326-343) -/

/-- Embedding of `centroid_corr`: `numerator = (M·Mᵗ)²` element-wise,
`denominator = rss_sqrt · rss_sqrtᵗ` where `rss_sqrt i = sqrt (Σ t, (M i t)²)`,
and the result is the element-wise quotient. -/
noncomputable def centroid_corr {c d : ℕ} (centroid_mat : Fin c → Fin d → ℝ) :
    Fin c → Fin c → ℝ :=
  fun i j => (∑ t, centroid_mat i t * centroid_mat j t) ^ 2 /
    (Real.sqrt (∑ t, (centroid_mat i t) ^ 2) * Real.sqrt (∑ t, (centroid_mat j t) ^ 2))

/-! ### `get_embeddings` (src/modules.py lines 302-323) -/

/-- Embedding of `get_embeddings`: a `[vocab_size, num_units]` variable
(rows given by the initializer), and when `zero_pad` is set the result is
`tf.concat((tf.zeros([1, num_units]), embeddings[1:, :]), 0)`. -/
def get_embeddings (vocab_size num_units : ℕ) (init : ℕ → ℕ → ℚ)
    (zero_pad : Bool) : List (List ℚ) :=
  let embeddings :=
    (List.range vocab_size).map (fun i => (List.range num_units).map (fun j => init i j))
  if zero_pad then List.replicate num_units 0 :: embeddings.drop 1
  else embeddings

/-! ### `autoencoder` (src/modules.py lines 13-59) -/

/-- Rectified linear unit on the rationals. -/
def reluQ (x : ℚ) : ℚ := max x 0

/-- One `tf.layers.dense(x, units, activation)` application to a single
row `x`: output j is `activation (Σ i, x i * W i j + b j)` for j below
`units`. -/
def denseLayer (act : ℚ → ℚ) (units : ℕ) (W : ℕ → ℕ → ℚ) (b : ℕ → ℚ)
    (x : List ℚ) : List ℚ :=
  (List.range units).map (fun j => act ((x.enum.map (fun p => p.2 * W p.1 j)).sum + b j))

/-- `tf.nn.l2_loss(t)`: half the sum of the squared entries. -/
def l2_loss (t : List (List ℚ)) : ℚ :=
  ((t.map (fun row => (row.map (fun v => v ^ 2)).sum)).sum) / 2

/-- Element-wise difference of two matrices of equal shape. -/
def matSub (a b : List (List ℚ)) : List (List ℚ) :=
  List.zipWith (fun r1 r2 => List.zipWith (fun x y => x - y) r1 r2) a b

/-- The encoder/decoder/reconstruction pipeline of `autoencoder`: the
encoder folds a relu dense layer per entry of `layers`, the decoder folds
relu dense layers over the reversed width list from index 1 on, and the
final linear layer restores `restore_dim = int(features.shape[1])`
columns.  Returns `(hidden_feature, restore)`; each layer's kernel and
bias are supplied per layer index. -/
def autoencoder_core (input : List (List ℚ)) (layers : List ℕ)
    (encW : ℕ → ℕ → ℕ → ℚ) (encB : ℕ → ℕ → ℚ)
    (decW : ℕ → ℕ → ℕ → ℚ) (decB : ℕ → ℕ → ℚ)
    (recW : ℕ → ℕ → ℚ) (recB : ℕ → ℚ) : (List (List ℚ)) × (List (List ℚ)) :=
  let restore_dim := input.headI.length
  let hidden := (layers.enum).foldl
    (fun features iu => features.map (denseLayer reluQ iu.2 (encW iu.1) (encB iu.1))) input
  let decoded := ((layers.reverse).enum.drop 1).foldl
    (fun features iu => features.map (denseLayer reluQ iu.2 (decW iu.1) (decB iu.1))) hidden
  let restore := decoded.map (denseLayer (fun v => v) restore_dim recW recB)
  (hidden, restore)

/-- Embedding of `autoencoder`: returns the hidden feature and
`recon_loss = tf.nn.l2_loss(input_features - restore)`. -/
def autoencoder (input : List (List ℚ)) (layers : List ℕ)
    (encW : ℕ → ℕ → ℕ → ℚ) (encB : ℕ → ℕ → ℚ)
    (decW : ℕ → ℕ → ℕ → ℚ) (decB : ℕ → ℕ → ℚ)
    (recW : ℕ → ℕ → ℚ) (recB : ℕ → ℚ) : (List (List ℚ)) × ℚ :=
  let hr := autoencoder_core input layers encW encB decW decB recW recB
  (hr.1, l2_loss (matSub input hr.2))

/-! ### Concrete instances used by witnesses and counterexamples -/

/-- Concrete 1 × 1 centroid matrix with the single entry 2. -/
noncomputable def corrMatTwo : Fin 1 → Fin 1 → ℝ := fun _ _ => 2

/-- Concrete 1 × 1 centroid matrix with the single entry 3. -/
noncomputable def corrMatThree : Fin 1 → Fin 1 → ℝ := fun _ _ => 3

/-- Concrete 1 × 2 adjacency batch: node 0 is a non-edge, node 1 an edge. -/
def adjEx : Fin 1 → Fin 2 → ℤ := fun _ j => if j = 0 then 0 else 1

/-- Concrete all-ones embedding slice for the AFM instances. -/
noncomputable def uattrOnes : Fin 1 → ℕ → Fin 1 → ℝ := fun _ _ _ => 1

/-- Concrete all-ones 1 × 1 attention weight matrix. -/
noncomputable def attnWOne : Fin 1 → Fin 1 → ℝ := fun _ _ => 1

/-- Concrete all-ones attention projection vector. -/
noncomputable def attnPOne : Fin 1 → ℝ := fun _ => 1

/-- Concrete all-zero attention bias vector. -/
noncomputable def attnBZero : Fin 1 → ℝ := fun _ => 0

/-- Concrete 1 × 1 batch of hidden features for the centroid witness. -/
noncomputable def centInputEx : Fin 1 → Fin 1 → ℝ := fun _ _ => 1

/-- Concrete 1 × 1 centroid variable for the centroid witness. -/
noncomputable def centTableEx : Fin 1 → Fin 1 → ℝ := fun _ _ => 1

/-- Concrete three-index kernel that is identically zero. -/
def zeroK3 : ℕ → ℕ → ℕ → ℚ := fun _ _ _ => 0

/-- Concrete two-index kernel that is identically zero. -/
def zeroK2 : ℕ → ℕ → ℚ := fun _ _ => 0

/-- Concrete one-index bias that is identically zero. -/
def zeroK1 : ℕ → ℚ := fun _ => 0

/-! ## Helper lemmas -/

/-- Softmax along a nonempty axis sums to 1. -/
lemma softmax_sum_one {n : ℕ} (hn : 0 < n) (x : Fin n → ℝ) :
    ∑ i, softmax x i = 1 := by
  have hpos : 0 < ∑ j, Real.exp (x j) :=
    Finset.sum_pos (fun j _ => Real.exp_pos (x j)) ⟨⟨0, hn⟩, Finset.mem_univ _⟩
  unfold softmax
  rw [← Finset.sum_div, div_self hpos.ne']

/-- Sums of squares of rationals are nonnegative. -/
lemma sum_sq_list_nonneg (l : List ℚ) : 0 ≤ (l.map (fun v => v ^ 2)).sum := by
  apply List.sum_nonneg
  intro x hx
  obtain ⟨v, hv, rfl⟩ := List.mem_map.mp hx
  positivity

/-- The squared difference of a list with itself sums to zero. -/
lemma zipWith_sub_self_sq_sum (l : List ℚ) :
    ((List.zipWith (fun x y => x - y) l l).map (fun v => v ^ 2)).sum = 0 := by
  induction l with
  | nil => simp
  | cons a t ih => simp [ih]

/-- For equal-length rows, the sum of squared differences vanishes exactly
when the rows are equal. -/
lemma row_sq_zero_iff (a b : List ℚ) (h : a.length = b.length) :
    ((List.zipWith (fun x y => x - y) a b).map (fun v => v ^ 2)).sum = 0 ↔ b = a := by
  induction a generalizing b with
  | nil =>
    cases b with
    | nil => simp
    | cons y ys => simp at h
  | cons x xs ih =>
    cases b with
    | nil => simp at h
    | cons y ys =>
      have hlen : xs.length = ys.length := by simpa using h
      have h1 : 0 ≤ (x - y) ^ 2 := sq_nonneg _
      have h2 := sum_sq_list_nonneg (List.zipWith (fun x y => x - y) xs ys)
      simp only [List.zipWith_cons_cons, List.map_cons, List.sum_cons]
      constructor
      · intro h0
        have hx : (x - y) ^ 2 = 0 := by linarith
        have hrest : ((List.zipWith (fun x y => x - y) xs ys).map (fun v => v ^ 2)).sum = 0 := by
          linarith
        have hxy : y = x := by
          have hx0 : x - y = 0 := sq_eq_zero_iff.mp hx
          linarith
        have hys : ys = xs := (ih ys hlen).mp hrest
        rw [hxy, hys]
      · intro heq
        injection heq with hy hys
        subst hy
        subst hys
        simp [zipWith_sub_self_sq_sum]

/-- For matrices with matching row counts and matching row lengths, the
total sum of squared entry differences vanishes exactly when the matrices
are equal. -/
lemma matSub_sq_sum_zero_iff (A B : List (List ℚ)) (hlen : A.length = B.length)
    (hrow : ∀ p ∈ A.zip B, List.length p.1 = List.length p.2) :
    ((matSub A B).map (fun row => (row.map (fun v => v ^ 2)).sum)).sum = 0 ↔ B = A := by
  induction A generalizing B with
  | nil =>
    cases B with
    | nil => simp [matSub]
    | cons q qs => simp at hlen
  | cons r rs ih =>
    cases B with
    | nil => simp at hlen
    | cons q qs =>
      have hlen2 : rs.length = qs.length := by simpa using hlen
      have hrq : r.length = q.length := hrow (r, q) (by simp)
      have hrest : ∀ p ∈ rs.zip qs, List.length p.1 = List.length p.2 := by
        intro p hp
        exact hrow p (by simp [hp])
      have hrow0 := sum_sq_list_nonneg (List.zipWith (fun x y => x - y) r q)
      have hmat0 : 0 ≤ ((matSub rs qs).map (fun row => (row.map (fun v => v ^ 2)).sum)).sum := by
        apply List.sum_nonneg
        intro x hx
        obtain ⟨row, hrmem, rfl⟩ := List.mem_map.mp hx
        exact sum_sq_list_nonneg row
      rw [show matSub (r :: rs) (q :: qs) =
        (List.zipWith (fun x y => x - y) r q) :: matSub rs qs from rfl]
      rw [List.map_cons, List.sum_cons]
      constructor
      · intro h0
        have hA : ((List.zipWith (fun x y => x - y) r q).map (fun v => v ^ 2)).sum = 0 := by
          linarith
        have hB : ((matSub rs qs).map (fun row => (row.map (fun v => v ^ 2)).sum)).sum = 0 := by
          linarith
        have hq : q = r := (row_sq_zero_iff r q hrq).mp hA
        have hqs : qs = rs := (ih qs hlen2 hrest).mp hB
        rw [hq, hqs]
      · intro heq
        injection heq with hq hqs
        subst hq
        subst hqs
        rw [zipWith_sub_self_sq_sum, (ih qs hlen2 hrest).mpr rfl]
        ring

/-- The reconstruction L2 loss vanishes exactly when the matrices agree
(given matching shapes). -/
lemma l2_loss_matSub_zero_iff (A B : List (List ℚ)) (hlen : A.length = B.length)
    (hrow : ∀ p ∈ A.zip B, List.length p.1 = List.length p.2) :
    l2_loss (matSub A B) = 0 ↔ B = A := by
  rw [l2_loss, div_eq_zero_iff]
  have h2 : (2 : ℚ) ≠ 0 := by norm_num
  simp only [h2, or_false]
  exact matSub_sq_sum_zero_iff A B hlen hrow

/-- Folding per-row maps over a batch preserves the batch size. -/
lemma fold_map_length {β : Type} (ps : List β) (g : β → List ℚ → List ℚ)
    (init : List (List ℚ)) :
    (ps.foldl (fun features p => features.map (g p)) init).length = init.length := by
  induction ps generalizing init with
  | nil => rfl
  | cons p t ih =>
    rw [List.foldl_cons, ih]
    exact List.length_map _ _

/-- The reconstruction of `autoencoder_core` has one row per input row. -/
lemma autoencoder_core_restore_length (input : List (List ℚ)) (layers : List ℕ)
    (encW : ℕ → ℕ → ℕ → ℚ) (encB : ℕ → ℕ → ℚ)
    (decW : ℕ → ℕ → ℕ → ℚ) (decB : ℕ → ℕ → ℚ)
    (recW : ℕ → ℕ → ℚ) (recB : ℕ → ℚ) :
    (autoencoder_core input layers encW encB decW decB recW recB).2.length
      = input.length := by
  dsimp only [autoencoder_core]
  rw [List.length_map, fold_map_length, fold_map_length]

/-- Every reconstructed row of `autoencoder_core` has the stored input
width `restore_dim`. -/
lemma autoencoder_core_restore_rows (input : List (List ℚ)) (layers : List ℕ)
    (encW : ℕ → ℕ → ℕ → ℚ) (encB : ℕ → ℕ → ℚ)
    (decW : ℕ → ℕ → ℕ → ℚ) (decB : ℕ → ℕ → ℚ)
    (recW : ℕ → ℕ → ℚ) (recB : ℕ → ℚ) :
    ∀ r ∈ (autoencoder_core input layers encW encB decW decB recW recB).2,
      r.length = input.headI.length := by
  intro r hr
  dsimp only [autoencoder_core] at hr
  obtain ⟨row, hmem, rfl⟩ := List.mem_map.mp hr
  simp [denseLayer]

/-! ## Claim theorems -/

/-- C7: the reconstruction loss returned by `autoencoder` equals half the
sum of squared element-wise differences between the input and the
reconstruction produced by the final linear layer, and it is 0 exactly
when the reconstruction equals the input (for a batch of uniform row
width). -/
theorem autoencoder_recon_loss_spec (input : List (List ℚ)) (layers : List ℕ)
    (encW : ℕ → ℕ → ℕ → ℚ) (encB : ℕ → ℕ → ℚ)
    (decW : ℕ → ℕ → ℕ → ℚ) (decB : ℕ → ℕ → ℚ)
    (recW : ℕ → ℕ → ℚ) (recB : ℕ → ℚ)
    (hw : ∀ r ∈ input, r.length = input.headI.length) :
    (autoencoder input layers encW encB decW decB recW recB).2 =
      (1 / 2) * (((matSub input
        (autoencoder_core input layers encW encB decW decB recW recB).2).map
          (fun row => (row.map (fun v => v ^ 2)).sum)).sum) ∧
    ((autoencoder input layers encW encB decW decB recW recB).2 = 0 ↔
      (autoencoder_core input layers encW encB decW decB recW recB).2 = input) := by
  have hloss : (autoencoder input layers encW encB decW decB recW recB).2 =
      l2_loss (matSub input
        (autoencoder_core input layers encW encB decW decB recW recB).2) := rfl
  have hlen : input.length =
      (autoencoder_core input layers encW encB decW decB recW recB).2.length :=
    (autoencoder_core_restore_length input layers encW encB decW decB recW recB).symm
  have hrows := autoencoder_core_restore_rows input layers encW encB decW decB recW recB
  have hpair : ∀ p ∈ input.zip
      (autoencoder_core input layers encW encB decW decB recW recB).2,
      List.length p.1 = List.length p.2 := by
    intro p hp
    obtain ⟨a, b⟩ := p
    obtain ⟨h1, h2⟩ := List.of_mem_zip hp
    rw [hw a h1, hrows b h2]
  refine ⟨?_, ?_⟩
  · rw [hloss, l2_loss]
    ring
  · rw [hloss]
    exact l2_loss_matSub_zero_iff input _ hlen hpair

/-- C7 witness: at the one-row batch `[[1]]`, empty hidden layer list and
all-zero kernels, the width hypothesis holds and the loss equals half the
squared difference sum, vanishing exactly when the reconstruction equals
the input. -/
theorem autoencoder_recon_loss_spec_witness :
    (∀ r ∈ [[(1 : ℚ)]], r.length = [[(1 : ℚ)]].headI.length) ∧
    ((autoencoder [[(1 : ℚ)]] [] zeroK3 zeroK2 zeroK3 zeroK2 zeroK2 zeroK1).2 =
      (1 / 2) * (((matSub [[(1 : ℚ)]]
        (autoencoder_core [[(1 : ℚ)]] [] zeroK3 zeroK2 zeroK3 zeroK2 zeroK2 zeroK1).2).map
          (fun row => (row.map (fun v => v ^ 2)).sum)).sum) ∧
    ((autoencoder [[(1 : ℚ)]] [] zeroK3 zeroK2 zeroK3 zeroK2 zeroK2 zeroK1).2 = 0 ↔
      (autoencoder_core [[(1 : ℚ)]] [] zeroK3 zeroK2 zeroK3 zeroK2 zeroK2 zeroK1).2 =
        [[(1 : ℚ)]])) :=
  ⟨by decide,
    autoencoder_recon_loss_spec [[(1 : ℚ)]] [] zeroK3 zeroK2 zeroK3 zeroK2 zeroK2 zeroK1
      (by decide)⟩

/-- C8: for every temperature `tao > 0`, every centroid count `c ≥ 1` and
every activation choice, the assignment distribution returned by
`centroid` sums to 1 for each sample of the batch. -/
theorem centroid_logits_sum_one {b c d : ℕ} (input_features : Fin b → Fin d → ℝ)
    (centroids : Fin c → Fin d → ℝ) (tao : ℝ) (activation : Option (ℝ → ℝ))
    (_htao : 0 < tao) (hc : 1 ≤ c) (s : Fin b) :
    ∑ j, (centroid input_features centroids tao activation).2 s j = 1 :=
  softmax_sum_one hc _

/-- C8 witness: at batch 1, one centroid of dimension 1, temperature 1 and
no activation, the hypotheses hold and the assignment distribution of
sample 0 sums to 1. -/
theorem centroid_logits_sum_one_witness :
    (0 : ℝ) < 1 ∧ 1 ≤ 1 ∧
      ∑ j, (centroid centInputEx centTableEx 1 none).2 0 j = 1 :=
  ⟨one_pos, le_refl 1,
    centroid_logits_sum_one centInputEx centTableEx 1 none one_pos (le_refl 1) 0⟩

/-- C9: the additive bias mask of `gatnet` maps every non-edge entry (0)
to `-1e9` and every edge entry (1) to 0. -/
theorem gatnet_bias_mat_spec {b n : ℕ} (adj_mat : Fin b → Fin n → ℤ)
    (i : Fin b) (j : Fin n) :
    (adj_mat i j = 0 → gatnet_bias_mat adj_mat i j = -(10 ^ 9)) ∧
    (adj_mat i j = 1 → gatnet_bias_mat adj_mat i j = 0) := by
  constructor <;> intro h <;> simp [gatnet_bias_mat, h]

/-- C9 witness: on the concrete adjacency batch `adjEx`, the non-edge
position gets bias `-1e9` and the edge position gets bias 0. -/
theorem gatnet_bias_mat_spec_witness :
    gatnet_bias_mat adjEx 0 0 = -(10 ^ 9) ∧ gatnet_bias_mat adjEx 0 1 = 0 :=
  ⟨(gatnet_bias_mat_spec adjEx 0 0).1 (by decide),
   (gatnet_bias_mat_spec adjEx 0 1).2 (by decide)⟩

/-- C6: whenever `zero_pad` is enabled, row 0 of the table returned by
`get_embeddings` is the zero vector, for every vocabulary size, embedding
dimension and initializer, on every construction call. -/
theorem get_embeddings_zero_pad_row_zero (vocab_size num_units : ℕ) (init : ℕ → ℕ → ℚ) :
    (get_embeddings vocab_size num_units init true).head? =
      some (List.replicate num_units 0) := by
  simp [get_embeddings]

/-- C5: at vocabulary size 3 and embedding dimension 2 the table returned
by `get_embeddings` has 3 rows — `vocab_size` rows, not the `vocab_size + 1`
rows stated by the claim (and by the source docstring). -/
theorem get_embeddings_row_count_bug :
    (get_embeddings 3 2 (fun i j => (i : ℚ) + j) true).length = 3 ∧
    (get_embeddings 3 2 (fun i j => (i : ℚ) + j) true).length ≠ 3 + 1 := by
  constructor
  · decide
  · decide

/-- C2 counterexample: the 1 × 1 centroid matrix with single entry 2 has
non-zero rows, yet the diagonal entry of `centroid_corr` is 4, not 1. -/
theorem centroid_corr_diag_ne_one : centroid_corr corrMatTwo 0 0 ≠ 1 := by
  have h4 : Real.sqrt (∑ t : Fin 1, (corrMatTwo 0 t) ^ 2) = 2 := by
    rw [show (∑ t : Fin 1, (corrMatTwo 0 t) ^ 2) = (2 : ℝ) ^ 2 by
      simp [corrMatTwo]]
    exact Real.sqrt_sq (by norm_num)
  rw [centroid_corr, h4]
  rw [show (∑ t : Fin 1, corrMatTwo 0 t * corrMatTwo 0 t) = (4 : ℝ) by
    simp [corrMatTwo]; norm_num]
  norm_num

/-- C2 amended: for a row `i` of the centroid matrix that is not the zero
vector, the diagonal entry `centroid_corr M i i` equals the squared L2
norm `Σ t, (M i t)²` of that row (so it equals 1 exactly for unit-norm
rows, not in general). -/
theorem centroid_corr_diag_eq_sq_norm {c d : ℕ} (centroid_mat : Fin c → Fin d → ℝ)
    (i : Fin c) (h : centroid_mat i ≠ 0) :
    centroid_corr centroid_mat i i = ∑ t, (centroid_mat i t) ^ 2 := by
  obtain ⟨t0, ht0⟩ := Function.ne_iff.mp h
  have ht0' : centroid_mat i t0 ≠ 0 := by simpa using ht0
  have hs : 0 < ∑ t, (centroid_mat i t) ^ 2 :=
    Finset.sum_pos' (fun t _ => sq_nonneg _)
      ⟨t0, Finset.mem_univ _, by positivity⟩
  rw [centroid_corr, Real.mul_self_sqrt hs.le,
    show (∑ t, centroid_mat i t * centroid_mat i t) = ∑ t, (centroid_mat i t) ^ 2 by
      simp [sq]]
  rw [sq, mul_div_assoc, div_self hs.ne', mul_one]

/-- C2 amended witness: the row of `corrMatThree` is non-zero and the
diagonal entry equals its squared norm (9). -/
theorem centroid_corr_diag_eq_sq_norm_witness :
    corrMatThree 0 ≠ 0 ∧
      centroid_corr corrMatThree 0 0 = ∑ t : Fin 1, (corrMatThree 0 t) ^ 2 := by
  have hne : corrMatThree 0 ≠ 0 := by
    intro hz
    have := congrFun hz 0
    simp [corrMatThree] at this
  exact ⟨hne, centroid_corr_diag_eq_sq_norm corrMatThree 0 hne⟩

/-- C4: for every rank-2 node-embedding table (shape `[n, d]`), `f_2` has
rank 2 with shape `[n, 1]`, and the construction of `gat_attn_head` fails
at `tf.transpose(f_2, [0, 2, 1])` (a rank-3 permutation applied to a
rank-2 tensor), so the broadcast attention logits are never produced. -/
theorem gat_attn_head_rank2_fails_at_transpose (n d b oz : ℕ)
    (bias_shape : List ℕ) (ft_drop coef_drop : ℚ) :
    denseShape [n, oz] 1 = Except.ok [n, 1] ∧
    gat_attn_head_shape [n, d] [b, 1] bias_shape oz ft_drop coef_drop =
      Except.error "transpose: perm incompatible with input rank" := by
  constructor
  · rfl
  · simp only [gat_attn_head_shape, ite_self]
    rfl

/-- C3: at the concrete rank-2 embedding table of shape `[2, 1]` that
`gatnet` supplies, with indices `[2, 1]`, bias `[2, 2]`, output size 4 and
both dropout rates 0, `gat_attn_head` fails with a shape error at the
transpose and never returns an attention distribution over the nodes. -/
theorem gat_attn_head_returns_no_distribution :
    gat_attn_head_shape [2, 1] [2, 1] [2, 2] 4 0 0 =
      Except.error "transpose: perm incompatible with input rank" := by
  rfl

/-- C10: for every field count below 2, the pairwise-interaction list of
`attentional_fm` built by the double loop is empty, and stacking that
empty list fails at graph-construction time; no up-front validation
rejects such a field count. -/
theorem afm_degenerate_below_two_fields {b d : ℕ} (attr_size : ℕ)
    (hk : attr_size < 2) (uattr_emb : Fin b → ℕ → Fin d → ℝ) :
    afm_element_wise_prod attr_size uattr_emb = [] ∧
    tf_stack (afm_element_wise_prod attr_size uattr_emb) =
      Except.error "stack: cannot stack an empty list of tensors" := by
  have hpairs : afmPairs attr_size = [] := by
    interval_cases attr_size
    · decide
    · decide
  constructor
  · simp [afm_element_wise_prod, hpairs]
  · simp [tf_stack, afm_element_wise_prod, hpairs]

/-- C10 witness: at field count 1 (below 2) the interaction list is empty
and the stack step errors. -/
theorem afm_degenerate_below_two_fields_witness :
    1 < 2 ∧
    (afm_element_wise_prod 1 uattrOnes = [] ∧
      tf_stack (afm_element_wise_prod 1 uattrOnes) =
        Except.error "stack: cannot stack an empty list of tensors") :=
  ⟨by decide, afm_degenerate_below_two_fields 1 (by decide) uattrOnes⟩

/-- C1: at field count 3 (batch 1, embedding and hidden dimension 1,
all-ones parameters), the attention weights returned by `attentional_fm`
sum to 3 — one weight of 1 per pair, because `tf.nn.softmax` is applied
over the trailing axis of size 1 of `attn_relu` — and not to 1 as the
claim states. -/
theorem afm_attention_weights_not_normalized :
    ((afm_attn_weights 3 uattrOnes attnWOne attnPOne attnBZero) 0).sum = 3 ∧
    ((afm_attn_weights 3 uattrOnes attnWOne attnPOne attnBZero) 0).sum ≠ 1 := by
  have hp : afmPairs 3 = [(0, 1), (0, 2), (1, 2)] := by decide
  have key : ∀ x : ℝ, softmax (fun _ : Fin 1 => x) 0 = 1 := by
    intro x
    simp [softmax, div_self (Real.exp_ne_zero x)]
  have hsum : ((afm_attn_weights 3 uattrOnes attnWOne attnPOne attnBZero) 0).sum = 3 := by
    simp only [afm_attn_weights, afm_attn_out, afm_attn_relu, hp, List.map_map,
      List.map_cons, List.map_nil, List.sum_cons, List.sum_nil, Function.comp]
    rw [key, key, key]
    norm_num
  exact ⟨hsum, by rw [hsum]; norm_num⟩

end GEARP
